import Mathlib

/-!
Verification of the resource synchronization core of the
`terraform-provider-aws` repository: the identifier codec
(`flex.FlattenResourceId` / `flex.ExpandResourceId`), the state poller
(`retry.StateChangeConf.WaitForStateContext` as configured by the
ElastiCache user-group waiters), the optimistic-concurrency controller
(the CloudFront key-value-store `keyResource` CRUD operations guarded by
`conns.GlobalMutexKV`), and the not-found handling of the ElastiCache
user-group and Cognito user-in-group resources.

Strings are embedded as `List Char`; remote calls are embedded as
explicit response environments; durations are natural numbers of seconds.
-/

/- ## Identifier codec -/

/-- Error taxonomy of the identifier codec (`ArityError`, `InvalidPartError`). -/
inductive CodecError
  | arityError (got expected : Nat)
  | invalidPartError
deriving DecidableEq, Repr

/-- Modelled from the spec: `flex.FlattenResourceId`'s escaping of one part is
not under `src/`; per the spec, each in-part occurrence of the delimiter and
of the escape character is preceded by the escape character. -/
def escapePart (delim esc : Char) : List Char → List Char
  | [] => []
  | c :: p => (if c = delim ∨ c = esc then [esc, c] else [c]) ++ escapePart delim esc p

/-- Modelled from the spec: joining of escaped parts with the reserved
delimiter, as `flex.FlattenResourceId` (not under `src/`) does. -/
def joinParts (delim esc : Char) : List (List Char) → List Char
  | [] => []
  | [p] => escapePart delim esc p
  | p :: ps => escapePart delim esc p ++ delim :: joinParts delim esc ps

/-- Modelled from the spec: `flex.FlattenResourceId(parts, expectedCount,
allowEmpty)` is not under `src/`. It fails with `ArityError` when
`len(parts) != expectedCount`, fails with `InvalidPartError` when
`!allowEmpty` and some part is empty, and otherwise returns the parts
joined by the delimiter with in-part delimiter/escape occurrences escaped. -/
def flattenResourceId (delim esc : Char) (parts : List (List Char))
    (expectedCount : Nat) (allowEmpty : Bool) : Except CodecError (List Char) :=
  if parts.length ≠ expectedCount then
    .error (.arityError parts.length expectedCount)
  else if !allowEmpty && parts.any List.isEmpty then
    .error .invalidPartError
  else
    .ok (joinParts delim esc parts)

/-- Prepend a character to the first part of a split result. -/
def consHead (c : Char) : List (List Char) → List (List Char)
  | [] => [[c]]
  | p :: ps => (c :: p) :: ps

/-- Modelled from the spec: the delimiter-splitting of
`flex.ExpandResourceId` (not under `src/`), respecting escape sequences: a
character preceded by the escape character is taken literally, an unescaped
delimiter separates parts. -/
def splitEscaped (delim esc : Char) : List Char → List (List Char)
  | [] => [[]]
  | [c] =>
    if c = esc then [[esc]]
    else if c = delim then [[], []]
    else [[c]]
  | c :: d :: rest =>
    if c = esc then consHead d (splitEscaped delim esc rest)
    else if c = delim then [] :: splitEscaped delim esc (d :: rest)
    else consHead c (splitEscaped delim esc (d :: rest))

/-- Modelled from the spec: `flex.ExpandResourceId(id, expectedCount,
allowEmpty)` is not under `src/`. It splits on the delimiter respecting
escape sequences, fails with `ArityError` when the part count differs from
`expectedCount`, and fails with `InvalidPartError` when `!allowEmpty` and
some recovered part is empty. -/
def expandResourceId (delim esc : Char) (id : List Char)
    (expectedCount : Nat) (allowEmpty : Bool) : Except CodecError (List (List Char)) :=
  let parts := splitEscaped delim esc id
  if parts.length ≠ expectedCount then
    .error (.arityError parts.length expectedCount)
  else if !allowEmpty && parts.any List.isEmpty then
    .error .invalidPartError
  else
    .ok parts

/-- Prepend a whole part to the first part of a split result. -/
def prependPart (p : List Char) : List (List Char) → List (List Char)
  | [] => [p]
  | q :: qs => (p ++ q) :: qs

/- ## State poller -/

/-- One observation returned by the caller-supplied refresh function
(`retry.StateRefreshFunc`): the object was not found (`statusUserGroup`
returns an empty state and no error on not-found), the object was found with
a status label, or the fetch itself failed. -/
inductive Refresh
  | notFound
  | found (label : String)
  | fetchErr
deriving DecidableEq, Repr

/-- Configuration of one polling session, the spec's `WaitSpec`. The source
`retry.StateChangeConf` fields map as `Pending` to `pending`, `Target` to
`target`, `Timeout` to `timeout`, `MinTimeout` to `minInterval` and `Delay`
to `initialDelay`; durations are in seconds. -/
structure WaitSpec where
  pending : List String
  target : List String
  timeout : Nat
  minInterval : Nat
  initialDelay : Nat
deriving Repr

/-- Terminal outcome of one polling session. -/
inductive Outcome
  | succeeded (last : Option String)
  | failedUnexpected (label : String)
  | failedVanished
  | failedFetch
  | timedOut (last : Option String)
deriving DecidableEq, Repr

/-- Modelled from the spec: the loop of
`retry.StateChangeConf.WaitForStateContext` is not under `src/`. Poll `k`
happens at time `initialDelay + k * minInterval` (first poll after
`initialDelay`, then the `minInterval` floor between polls); once `timeout`
is passed while still polling the result is `timedOut`. A not-found
observation succeeds exactly when `target` is empty; a label in `target`
succeeds; a label in `pending` keeps polling; any other label fails with the
unexpected-state outcome carrying the label; a fetch error fails at once.
Returns the outcome together with the times at which the refresh function
was invoked. `fuel` bounds the recursion; `waitForState` supplies enough
fuel that it never runs out when `0 < minInterval`. -/
def pollFrom (spec : WaitSpec) (refresh : Nat → Refresh) :
    Nat → Nat → Option String → Outcome × List Nat
  | 0, _, last => (.timedOut last, [])
  | fuel + 1, k, last =>
    let t := spec.initialDelay + k * spec.minInterval
    if spec.timeout < t then (.timedOut last, [])
    else
      match refresh k with
      | .notFound =>
        if spec.target.isEmpty then (.succeeded none, [t]) else (.failedVanished, [t])
      | .fetchErr => (.failedFetch, [t])
      | .found label =>
        if spec.target.contains label then (.succeeded (some label), [t])
        else if spec.pending.contains label then
          let r := pollFrom spec refresh fuel (k + 1) (some label)
          (r.1, t :: r.2)
        else (.failedUnexpected label, [t])

/-- The outcome of one polling session (`WaitForStateContext`). -/
def waitForState (spec : WaitSpec) (refresh : Nat → Refresh) : Outcome :=
  (pollFrom spec refresh (spec.timeout + 1) 0 none).1

/-- The times at which one polling session invokes the refresh function. -/
def refreshTimes (spec : WaitSpec) (refresh : Nat → Refresh) : List Nat :=
  (pollFrom spec refresh (spec.timeout + 1) 0 none).2

/-- `user_group.go`: ElastiCache user group status labels. -/
def userGroupStatusActive : String := "active"

/-- `user_group.go`: ElastiCache user group status labels. -/
def userGroupStatusCreating : String := "creating"

/-- `user_group.go`: ElastiCache user group status labels. -/
def userGroupStatusDeleting : String := "deleting"

/-- `user_group.go`: ElastiCache user group status labels. -/
def userGroupStatusModifying : String := "modifying"

/-- `waitUserGroupCreated`'s `retry.StateChangeConf` from `user_group.go`:
pending `creating`/`modifying`, target `active`, `MinTimeout` 10 seconds,
`Delay` 30 seconds. -/
def waitUserGroupCreatedSpec (timeout : Nat) : WaitSpec where
  pending := [userGroupStatusCreating, userGroupStatusModifying]
  target := [userGroupStatusActive]
  timeout := timeout
  minInterval := 10
  initialDelay := 30

/-- `waitUserGroupUpdated`'s `retry.StateChangeConf` from `user_group.go`:
pending `modifying`, target `active`, `MinTimeout` 10 seconds, `Delay` 30
seconds. -/
def waitUserGroupUpdatedSpec (timeout : Nat) : WaitSpec where
  pending := [userGroupStatusModifying]
  target := [userGroupStatusActive]
  timeout := timeout
  minInterval := 10
  initialDelay := 30

/-- `waitUserGroupDeleted`'s `retry.StateChangeConf` from `user_group.go`:
pending `deleting`, empty target (disappearance is success), `MinTimeout`
10 seconds, `Delay` 30 seconds. -/
def waitUserGroupDeletedSpec (timeout : Nat) : WaitSpec where
  pending := [userGroupStatusDeleting]
  target := []
  timeout := timeout
  minInterval := 10
  initialDelay := 30

/- ## Optimistic concurrency controller: the key resource -/

/-- Remote errors observed by the CloudFront KeyValueStore key resource:
the compare-and-swap rejection of a write whose `IfMatch` etag is stale,
`ResourceNotFoundException`, and any other failure. -/
inductive KvsErr
  | preconditionFailed
  | resourceNotFound
  | other (msg : String)
deriving DecidableEq, Repr

/-- Responses of the remote CloudFront KeyValueStore service during one
guarded mutation: `DescribeKeyValueStore` (the etag read of
`findETagByARN`), `PutKey` as a function of the presented `IfMatch` etag,
`DeleteKey` as a function of the presented `IfMatch` etag, and whether the
`fwflex.Expand` step succeeds. -/
structure KvsEnv where
  describeResp : Except KvsErr String
  putResp : String → Except KvsErr Unit
  deleteResp : String → Except KvsErr Unit
  expandOk : Bool

/-- Observable actions of one guarded key mutation: the named-lock
operations on `conns.GlobalMutexKV` keyed by the key-value-store ARN, and
the remote calls with the etag each write presents. -/
inductive KvsEvent
  | lock (key : String)
  | unlock (key : String)
  | describe
  | put (etag : String)
  | delete (etag : String)
deriving DecidableEq, Repr

/-- Whether an event is a remote read of the version token. -/
def KvsEvent.isRead : KvsEvent → Bool
  | .describe => true
  | _ => false

/-- Whether an event is a guarded remote write (`PutKey` or `DeleteKey`). -/
def KvsEvent.isWrite : KvsEvent → Bool
  | .put _ => true
  | .delete _ => true
  | _ => false

/-- `keyResource.Create` from the key resource source: lock the mutex keyed
by the key-value-store ARN, read the etag via `findETagByARN` (on error,
return it), expand the plan into the `PutKey` input (on error, return),
issue `PutKey` with `IfMatch` set to the read etag and return its error or
success; the deferred unlock runs after every path that acquired the lock.
The id computation and state writes that follow a successful put touch
neither the lock nor the remote service and are not modelled. Returns the
operation's outcome and its event log. -/
def keyCreate (kvsARN : String) (env : KvsEnv) : Except KvsErr Unit × List KvsEvent :=
  match env.describeResp with
  | .error e => (.error e, [.lock kvsARN, .describe, .unlock kvsARN])
  | .ok etag =>
    if env.expandOk then
      match env.putResp etag with
      | .error e => (.error e, [.lock kvsARN, .describe, .put etag, .unlock kvsARN])
      | .ok _ => (.ok (), [.lock kvsARN, .describe, .put etag, .unlock kvsARN])
    else (.error (.other "expand"), [.lock kvsARN, .describe, .unlock kvsARN])

/-- `keyResource.Update` from the key resource source: when the planned
value equals the old value there is no locking and no remote call;
otherwise lock, read the etag, expand, and issue `PutKey` with `IfMatch`,
exactly as in create, with the deferred unlock on every path. -/
def keyUpdate (kvsARN : String) (valueChanged : Bool) (env : KvsEnv) :
    Except KvsErr Unit × List KvsEvent :=
  if valueChanged then
    match env.describeResp with
    | .error e => (.error e, [.lock kvsARN, .describe, .unlock kvsARN])
    | .ok etag =>
      if env.expandOk then
        match env.putResp etag with
        | .error e => (.error e, [.lock kvsARN, .describe, .put etag, .unlock kvsARN])
        | .ok _ => (.ok (), [.lock kvsARN, .describe, .put etag, .unlock kvsARN])
      else (.error (.other "expand"), [.lock kvsARN, .describe, .unlock kvsARN])
  else (.ok (), [])

/-- `keyResource.Delete` from the key resource source: lock, read the etag
via `findETagByARN` (on error, return it), issue `DeleteKey` with
`IfMatch`; a `ResourceNotFoundException` from `DeleteKey` is swallowed and
the delete succeeds; any other error is returned; the deferred unlock runs
on every path that acquired the lock. -/
def keyDelete (kvsARN : String) (env : KvsEnv) : Except KvsErr Unit × List KvsEvent :=
  match env.describeResp with
  | .error e => (.error e, [.lock kvsARN, .describe, .unlock kvsARN])
  | .ok etag =>
    match env.deleteResp etag with
    | .error .resourceNotFound =>
      (.ok (), [.lock kvsARN, .describe, .delete etag, .unlock kvsARN])
    | .error e => (.error e, [.lock kvsARN, .describe, .delete etag, .unlock kvsARN])
    | .ok _ => (.ok (), [.lock kvsARN, .describe, .delete etag, .unlock kvsARN])

/-- The lock discipline and no-retry shape of one guarded mutation's event
log: at most one token read, at most one guarded write, equally many lock
and unlock events for the store's identity, and whenever the lock was taken
the log ends with its release. -/
def guardedLog (kvsARN : String) (log : List KvsEvent) : Prop :=
  log.countP (fun e => e.isRead) ≤ 1 ∧
  log.countP (fun e => e.isWrite) ≤ 1 ∧
  log.count (KvsEvent.lock kvsARN) = log.count (KvsEvent.unlock kvsARN) ∧
  (log.count (KvsEvent.lock kvsARN) = 1 → log.getLast? = some (KvsEvent.unlock kvsARN))

/- ## Mutual exclusion of in-process guarded mutations -/

/-- Modelled from the spec: `conns.GlobalMutexKV` is not under `src/`. Two
in-process sessions run the guarded mutation against the same
key-value-store identity. `pc i` is session `i`'s position: 0 before the
lock, 1 holding the lock about to read the token, 2 about to issue the
guarded write, 3 about to release, 4 done. `holder` is the session holding
the named lock, if any. -/
structure MutexState where
  pc : Bool → Nat
  holder : Option Bool

/-- Both sessions before the lock; the lock is free. -/
def initMutexState : MutexState where
  pc := fun _ => 0
  holder := none

/-- One interleaving step of the two guarded sessions: acquiring the named
lock requires it to be free; the token read and the guarded write run while
holding it; the release frees it. -/
inductive MutexStep : MutexState → MutexState → Prop
  | acquire (s : MutexState) (i : Bool) :
      s.pc i = 0 → s.holder = none →
      MutexStep s { pc := Function.update s.pc i 1, holder := some i }
  | readToken (s : MutexState) (i : Bool) :
      s.pc i = 1 →
      MutexStep s { s with pc := Function.update s.pc i 2 }
  | guardedWrite (s : MutexState) (i : Bool) :
      s.pc i = 2 →
      MutexStep s { s with pc := Function.update s.pc i 3 }
  | release (s : MutexState) (i : Bool) :
      s.pc i = 3 →
      MutexStep s { pc := Function.update s.pc i 4, holder := none }

/-- Session `i` is inside its read-token-then-write critical section. -/
def inCritical (s : MutexState) (i : Bool) : Prop :=
  s.pc i = 1 ∨ s.pc i = 2 ∨ s.pc i = 3

/-- States reachable from the initial state by interleaving the two
sessions. -/
def MutexReachable (s : MutexState) : Prop :=
  Relation.ReflTransGen MutexStep initMutexState s

/- ## Not-found handling of delete and read -/

/-- Remote errors of the ElastiCache user-group API. -/
inductive ElastiCacheErr
  | userGroupNotFoundFault
  | other (msg : String)
deriving DecidableEq, Repr

/-- Responses of the remote ElastiCache service during one delete of a user
group: the `DeleteUserGroup` call and the subsequent deletion wait. -/
structure UserGroupDeleteEnv where
  deleteResp : Except ElastiCacheErr Unit
  waitResp : Except ElastiCacheErr Unit

/-- `resourceUserGroupDelete` from `user_group.go`: issue `DeleteUserGroup`;
a `UserGroupNotFoundFault` returns success immediately; any other error is
returned; otherwise wait via `waitUserGroupDeleted` and propagate its
error. -/
def resourceUserGroupDelete (env : UserGroupDeleteEnv) : Except ElastiCacheErr Unit :=
  match env.deleteResp with
  | .error .userGroupNotFoundFault => .ok ()
  | .error e => .error e
  | .ok _ =>
    match env.waitResp with
    | .error e => .error e
    | .ok _ => .ok ()

/-- Result of a remote lookup (`findUserGroupByID`,
`findGroupUserByThreePartKey`): found with a payload, a
`retry.NotFoundError`, or another error. -/
inductive FindResult (α : Type)
  | ok (v : α)
  | notFound
  | err (msg : String)
deriving DecidableEq, Repr

/-- The slice of Terraform state that the read functions manipulate: the
resource id (`none` after `d.SetId("")`) and `d.IsNewResource()`. -/
structure ReadState where
  id : Option String
  isNewResource : Bool
deriving DecidableEq, Repr

/-- `resourceUserGroupRead` from `user_group.go`: look up the user group by
id; when the resource is not new and the lookup reports not-found, clear
the id from state and return success; any error on the remaining paths
(including a not-found on a new resource) is returned; on success the
attributes are set and the id kept. Returns the state after the read and
the diagnostics. -/
def resourceUserGroupRead (d : ReadState) (find : FindResult String) :
    ReadState × Except String Unit :=
  match find with
  | .notFound =>
    if !d.isNewResource then ({ d with id := none }, .ok ())
    else (d, .error "reading ElastiCache User Group: not found")
  | .err e => (d, .error e)
  | .ok _ => (d, .ok ())

/-- `resourceUserInGroupRead` from the Cognito user-in-group resource:
parse the id (`idChars`, the characters of `d.Id()`) into 3 parts with
`flex.ExpandResourceId`; a parse failure is returned as an error; then look
up the membership; when the resource is not new and the lookup reports
not-found, clear the id and return success; a not-found on a new resource
or any other error is returned; on success the attributes are set from the
parsed parts. -/
def resourceUserInGroupRead (d : ReadState) (idChars : List Char)
    (delim esc : Char) (find : FindResult Unit) : ReadState × Except String Unit :=
  match expandResourceId delim esc idChars 3 false with
  | .error _ => (d, .error "reading Cognito Group User: invalid id")
  | .ok _ =>
    match find with
    | .notFound =>
      if !d.isNewResource then ({ d with id := none }, .ok ())
      else (d, .error "reading Cognito Group User: not found")
    | .err e => (d, .error e)
    | .ok _ => (d, .ok ())

theorem consHead_ne_nil (c : Char) (ls : List (List Char)) : consHead c ls ≠ [] := by
  cases ls <;> simp [consHead]

theorem splitEscaped_ne_nil (delim esc : Char) (m : List Char) :
    splitEscaped delim esc m ≠ [] := by
  match m with
  | [] => simp [splitEscaped]
  | [c] =>
    simp only [splitEscaped]
    split <;> try split
    all_goals simp
  | c :: d :: rest =>
    simp only [splitEscaped]
    split
    · exact consHead_ne_nil _ _
    · split
      · simp
      · exact consHead_ne_nil _ _

theorem consHead_prependPart (c : Char) (p : List Char) (ls : List (List Char)) :
    consHead c (prependPart p ls) = prependPart (c :: p) ls := by
  cases ls <;> simp [consHead, prependPart]

theorem splitEscaped_cons_esc (delim esc : Char) (d : Char) (rest : List Char) :
    splitEscaped delim esc (esc :: d :: rest) = consHead d (splitEscaped delim esc rest) := by
  simp [splitEscaped]

theorem splitEscaped_cons_plain (delim esc c : Char) (hesc : c ≠ esc) (hdel : c ≠ delim)
    (rest : List Char) :
    splitEscaped delim esc (c :: rest) = consHead c (splitEscaped delim esc rest) := by
  match rest with
  | [] => simp [splitEscaped, consHead, hesc, hdel]
  | d :: rest' => simp [splitEscaped, hesc, hdel]

theorem splitEscaped_cons_delim (delim esc : Char) (hne : delim ≠ esc) (rest : List Char) :
    splitEscaped delim esc (delim :: rest) = [] :: splitEscaped delim esc rest := by
  match rest with
  | [] => simp [splitEscaped, hne]
  | d :: rest' => simp [splitEscaped, hne]

theorem splitEscaped_escapePart_append (delim esc : Char) (p : List Char)
    (rest : List Char) :
    splitEscaped delim esc (escapePart delim esc p ++ rest) =
      prependPart p (splitEscaped delim esc rest) := by
  induction p with
  | nil =>
    simp only [escapePart, List.nil_append]
    rcases h : splitEscaped delim esc rest with _ | ⟨q, qs⟩
    · exact absurd h (splitEscaped_ne_nil delim esc rest)
    · simp [prependPart]
  | cons c p ih =>
    simp only [escapePart]
    by_cases hc : c = delim ∨ c = esc
    · simp only [if_pos hc, List.cons_append, List.append_assoc, List.nil_append]
      rw [splitEscaped_cons_esc, ih, consHead_prependPart]
    · push_neg at hc
      simp only [if_neg (by tauto : ¬(c = delim ∨ c = esc)), List.cons_append,
        List.nil_append]
      rw [splitEscaped_cons_plain delim esc c hc.2 hc.1, ih, consHead_prependPart]

theorem splitEscaped_joinParts (delim esc : Char) (hne : delim ≠ esc)
    (parts : List (List Char)) (hp : parts ≠ []) :
    splitEscaped delim esc (joinParts delim esc parts) = parts := by
  induction parts with
  | nil => exact absurd rfl hp
  | cons p ps ih =>
    match ps with
    | [] =>
      have h1 : joinParts delim esc [p] = escapePart delim esc p ++ [] := by
        simp [joinParts]
      rw [h1, splitEscaped_escapePart_append]
      simp [splitEscaped, prependPart]
    | q :: qs =>
      have h1 : joinParts delim esc (p :: q :: qs) =
          escapePart delim esc p ++ delim :: joinParts delim esc (q :: qs) := by
        simp [joinParts]
      rw [h1, splitEscaped_escapePart_append, splitEscaped_cons_delim delim esc hne,
        ih (by simp)]
      simp [prependPart]

example :
    flattenResourceId ',' '\\' [['a', ',', 'b'], ['c']] 2 false =
      .ok ['a', '\\', ',', 'b', ',', 'c'] := by rfl

example :
    expandResourceId ',' '\\' ['a', '\\', ',', 'b', ',', 'c'] 2 false =
      .ok [['a', ',', 'b'], ['c']] := by rfl

/-- C1: for every list of parts of length `n` accepted by `Encode`
(including parts that contain the delimiter or escape characters), decoding
the encoded identifier with the same expected count `n` and the same
`allowEmpty` flag returns exactly the original part list. -/
theorem expandResourceId_flattenResourceId (delim esc : Char) (hne : delim ≠ esc)
    (parts : List (List Char)) (n : Nat) (a : Bool) (enc : List Char)
    (hp : parts ≠ [])
    (henc : flattenResourceId delim esc parts n a = .ok enc) :
    expandResourceId delim esc enc n a = .ok parts := by
  simp only [flattenResourceId] at henc
  split at henc
  · simp at henc
  · split at henc
    · simp at henc
    · rename_i hlen hempty
      obtain rfl : joinParts delim esc parts = enc := by simpa using henc
      simp only [expandResourceId]
      rw [splitEscaped_joinParts delim esc hne parts hp]
      rw [if_neg hlen, if_neg hempty]

/-- Witness for C1 at a concrete input whose parts contain the delimiter and
the escape character. -/
theorem expandResourceId_flattenResourceId_witness :
    expandResourceId ',' '\\' ['a', '\\', ',', 'b', ',', '\\', '\\', 'c'] 2 false =
      .ok [['a', ',', 'b'], ['\\', 'c']] :=
  expandResourceId_flattenResourceId ',' '\\' (by decide)
    [['a', ',', 'b'], ['\\', 'c']] 2 false
    ['a', '\\', ',', 'b', ',', '\\', '\\', 'c'] (by simp) (by rfl)

/-- C2: decoding an identifier produced by `Encode` for arity `n` with any
expected count `m ≠ n` returns an `ArityError`; it does not silently
truncate or pad the part list. -/
theorem expandResourceId_arity_mismatch (delim esc : Char) (hne : delim ≠ esc)
    (parts : List (List Char)) (n m : Nat) (a : Bool) (enc : List Char)
    (hp : parts ≠ []) (hm : m ≠ n)
    (henc : flattenResourceId delim esc parts n a = .ok enc) :
    expandResourceId delim esc enc m a = .error (.arityError n m) := by
  simp only [flattenResourceId] at henc
  split at henc
  · simp at henc
  · split at henc
    · simp at henc
    · rename_i hlen hempty
      push_neg at hlen
      obtain rfl : joinParts delim esc parts = enc := by simpa using henc
      simp only [expandResourceId]
      rw [splitEscaped_joinParts delim esc hne parts hp]
      rw [if_pos (by omega : parts.length ≠ m), hlen]

/-- Witness for C2: a two-part identifier decoded with expected count 3. -/
theorem expandResourceId_arity_mismatch_witness :
    expandResourceId ',' '\\' ['a', ',', 'b'] 3 false = .error (.arityError 2 3) :=
  expandResourceId_arity_mismatch ',' '\\' (by decide) [['a'], ['b']] 2 3 false
    ['a', ',', 'b'] (by simp) (by decide) (by rfl)

theorem pollFrom_pending_step (spec : WaitSpec) (refresh : Nat → Refresh)
    (fuel k : Nat) (last : Option String) (l : String)
    (hr : refresh k = .found l) (hp : spec.pending.contains l = true)
    (hnt : spec.target.contains l = false)
    (ht : spec.initialDelay + k * spec.minInterval ≤ spec.timeout) :
    pollFrom spec refresh (fuel + 1) k last =
      ((pollFrom spec refresh fuel (k + 1) (some l)).1,
        (spec.initialDelay + k * spec.minInterval) ::
          (pollFrom spec refresh fuel (k + 1) (some l)).2) := by
  have hnt' : l ∉ spec.target := by simpa using hnt
  have hp' : l ∈ spec.pending := by simpa using hp
  simp only [pollFrom]
  rw [if_neg (not_lt.mpr ht), hr]
  simp [hnt', hp']

theorem pollFrom_skip_pending (spec : WaitSpec) (refresh : Nat → Refresh)
    (d : Nat) :
    ∀ (fuel k : Nat) (last : Option String),
      (∀ j, k ≤ j → j < k + d → ∃ l, refresh j = .found l ∧
        spec.pending.contains l = true ∧ spec.target.contains l = false) →
      spec.initialDelay + (k + d) * spec.minInterval ≤ spec.timeout →
      ∃ last', (pollFrom spec refresh (fuel + d) k last).1 =
        (pollFrom spec refresh fuel (k + d) last').1 := by
  induction d with
  | zero => intro fuel k last _ _; exact ⟨last, by simp⟩
  | succ d ih =>
    intro fuel k last hall ht
    obtain ⟨l, hr, hp, hnt⟩ := hall k le_rfl (by omega)
    have htk : spec.initialDelay + k * spec.minInterval ≤ spec.timeout :=
      le_trans
        (Nat.add_le_add_left (mul_le_mul_right' (by omega : k ≤ k + (d + 1)) _) _) ht
    have heq : fuel + (d + 1) = (fuel + d) + 1 := by omega
    rw [heq, pollFrom_pending_step spec refresh (fuel + d) k last l hr hp hnt htk]
    obtain ⟨last', h'⟩ := ih fuel (k + 1) (some l)
      (fun j hj1 hj2 => hall j (by omega) (by omega))
      (by
        have hkd : k + 1 + d = k + (d + 1) := by omega
        rw [hkd]; exact ht)
    refine ⟨last', ?_⟩
    have hkd : k + 1 + d = k + (d + 1) := by omega
    rw [hkd] at h'
    simpa using h'

theorem pollFrom_at_notFound (spec : WaitSpec) (refresh : Nat → Refresh)
    (fuel n : Nat) (last : Option String)
    (hr : refresh n = .notFound) (htgt : spec.target = [])
    (ht : spec.initialDelay + n * spec.minInterval ≤ spec.timeout) :
    (pollFrom spec refresh (fuel + 1) n last).1 = .succeeded none := by
  simp only [pollFrom]
  rw [if_neg (not_lt.mpr ht), hr]
  simp [htgt]

theorem pollFrom_at_unexpected (spec : WaitSpec) (refresh : Nat → Refresh)
    (fuel n : Nat) (last : Option String) (l : String)
    (hr : refresh n = .found l) (hp : spec.pending.contains l = false)
    (htg : spec.target.contains l = false)
    (ht : spec.initialDelay + n * spec.minInterval ≤ spec.timeout) :
    (pollFrom spec refresh (fuel + 1) n last).1 = .failedUnexpected l := by
  have hp' : l ∉ spec.pending := by simpa using hp
  have htg' : l ∉ spec.target := by simpa using htg
  simp only [pollFrom]
  rw [if_neg (not_lt.mpr ht), hr]
  simp [hp', htg']

theorem pollFrom_no_success_when_found (spec : WaitSpec) (refresh : Nat → Refresh)
    (htgt : spec.target = []) (hnf : ∀ j, refresh j ≠ .notFound) :
    ∀ (fuel k : Nat) (last : Option String) (x : Option String),
      (pollFrom spec refresh fuel k last).1 ≠ .succeeded x := by
  intro fuel
  induction fuel with
  | zero => intro k last x; simp [pollFrom]
  | succ fuel ih =>
    intro k last x
    simp only [pollFrom]
    split
    · simp
    · rcases hre : refresh k with _ | l | _
      · exact absurd hre (hnf k)
      · dsimp only
        rw [if_neg (by simp [htgt])]
        split
        · simpa using ih (k + 1) (some l) x
        · simp
      · simp

theorem pollFrom_pending_timeout (spec : WaitSpec) (refresh : Nat → Refresh)
    (hall : ∀ k, spec.initialDelay + k * spec.minInterval ≤ spec.timeout →
      ∃ l, refresh k = .found l ∧ spec.pending.contains l = true ∧
        spec.target.contains l = false) :
    ∀ (fuel k : Nat) (last : Option String),
      ∃ last', (pollFrom spec refresh fuel k last).1 = .timedOut last' := by
  intro fuel
  induction fuel with
  | zero => intro k last; exact ⟨last, rfl⟩
  | succ fuel ih =>
    intro k last
    by_cases ht : spec.timeout < spec.initialDelay + k * spec.minInterval
    · exact ⟨last, by simp [pollFrom, ht]⟩
    · obtain ⟨l, hr, hp, hnt⟩ := hall k (not_lt.mp ht)
      rw [pollFrom_pending_step spec refresh fuel k last l hr hp hnt (not_lt.mp ht)]
      simpa using ih (k + 1) (some l)

theorem pollFrom_times_head (spec : WaitSpec) (refresh : Nat → Refresh)
    (fuel k : Nat) (last : Option String) :
    (pollFrom spec refresh fuel k last).2 = [] ∨
      ∃ rest, (pollFrom spec refresh fuel k last).2 =
        (spec.initialDelay + k * spec.minInterval) :: rest := by
  match fuel with
  | 0 => left; rfl
  | fuel + 1 =>
    simp only [pollFrom]
    split
    · left; rfl
    · rcases refresh k with _ | l | _
      · dsimp only
        split
        · right; exact ⟨[], rfl⟩
        · right; exact ⟨[], rfl⟩
      · dsimp only
        split
        · right; exact ⟨[], rfl⟩
        · split
          · right; exact ⟨(pollFrom spec refresh fuel (k + 1) (some l)).2, rfl⟩
          · right; exact ⟨[], rfl⟩
      · right; exact ⟨[], rfl⟩

theorem pollFrom_times_lb (spec : WaitSpec) (refresh : Nat → Refresh) :
    ∀ (fuel k : Nat) (last : Option String) (t : Nat),
      t ∈ (pollFrom spec refresh fuel k last).2 →
      spec.initialDelay + k * spec.minInterval ≤ t := by
  intro fuel
  induction fuel with
  | zero => intro k last t ht; simp [pollFrom] at ht
  | succ fuel ih =>
    intro k last t ht
    simp only [pollFrom] at ht
    split at ht
    · simp at ht
    · split at ht
      · split at ht
        all_goals simp at ht; exact le_of_eq ht.symm
      · simp at ht; exact le_of_eq ht.symm
      · rename_i l heqr
        split at ht
        · simp at ht; exact le_of_eq ht.symm
        · split at ht
          · simp only [List.mem_cons] at ht
            rcases ht with rfl | ht
            · exact le_refl _
            · exact le_trans
                (Nat.add_le_add_left (mul_le_mul_right' (Nat.le_succ k) _) _)
                (ih (k + 1) (some l) t ht)
          · simp at ht; exact le_of_eq ht.symm

theorem pollFrom_times_chain (spec : WaitSpec) (refresh : Nat → Refresh) :
    ∀ (fuel k : Nat) (last : Option String),
      List.Chain' (fun a b => a + spec.minInterval ≤ b)
        (pollFrom spec refresh fuel k last).2 := by
  intro fuel
  induction fuel with
  | zero => intro k last; simp [pollFrom]
  | succ fuel ih =>
    intro k last
    simp only [pollFrom]
    split
    · simp
    · rcases refresh k with _ | l | _
      · dsimp only
        split <;> simp
      · dsimp only
        split
        · simp
        · split
          · rw [List.chain'_cons']
            constructor
            · intro b hb
              rcases pollFrom_times_head spec refresh fuel (k + 1) (some l) with
                h0 | ⟨rest, h0⟩
              · rw [h0] at hb; simp at hb
              · rw [h0] at hb
                simp only [List.head?_cons, Option.mem_some_iff] at hb
                subst hb
                exact le_of_eq (by rw [Nat.succ_mul, Nat.add_assoc])
            · exact ih (k + 1) (some l)
          · simp
      · simp

/-- C3: for every polling session whose target set is empty (a deletion
wait), the poller succeeds exactly when the refresh reports not-found —
if the object is still found whenever polled, the outcome is never
`succeeded`; and if a poll reached through pending observations reports
not-found within the timeout, the outcome is `succeeded`. -/
theorem waitForState_empty_target (spec : WaitSpec) (refresh : Nat → Refresh)
    (htgt : spec.target = []) (hmin : 0 < spec.minInterval) :
    ((∀ j, refresh j ≠ .notFound) →
      ∀ x, waitForState spec refresh ≠ .succeeded x)
    ∧ (∀ n, (∀ j, j < n → ∃ l, refresh j = .found l ∧
          spec.pending.contains l = true) →
        refresh n = .notFound →
        spec.initialDelay + n * spec.minInterval ≤ spec.timeout →
        waitForState spec refresh = .succeeded none) := by
  constructor
  · intro hnf x
    exact pollFrom_no_success_when_found spec refresh htgt hnf _ 0 none x
  · intro n hall hr ht
    unfold waitForState
    have h2 : n ≤ n * spec.minInterval := by
      conv_lhs => rw [← mul_one n]
      exact mul_le_mul_left' (by omega) n
    have h3 : n * spec.minInterval ≤ spec.timeout :=
      le_trans (Nat.le_add_left _ _) ht
    have hfuel : n ≤ spec.timeout := le_trans h2 h3
    obtain ⟨f, hf⟩ : ∃ f, spec.timeout + 1 = f + n := ⟨spec.timeout + 1 - n, by omega⟩
    obtain ⟨last', hskip⟩ := pollFrom_skip_pending spec refresh n f 0 none
      (fun j hj1 hj2 => by
        obtain ⟨l, h1, hmem⟩ := hall j (by omega)
        exact ⟨l, h1, hmem, by simp [htgt]⟩)
      (by simpa using ht)
    rw [hf, hskip]
    obtain ⟨f', rfl⟩ : ∃ f', f = f' + 1 := ⟨f - 1, by omega⟩
    have := pollFrom_at_notFound spec refresh f' n last' hr htgt ht
    simpa using this

/-- Witness for C3: the ElastiCache deletion waiter's configuration with a
refresh that reports `deleting` once and then not-found. -/
theorem waitForState_empty_target_witness :
    waitForState (waitUserGroupDeletedSpec 300)
      (fun k => if k = 0 then .found "deleting" else .notFound) = .succeeded none := by
  have h := waitForState_empty_target (waitUserGroupDeletedSpec 300)
    (fun k => if k = 0 then .found "deleting" else .notFound) (by rfl) (by decide)
  refine h.2 1 (fun j hj => ⟨"deleting", ?_, ?_⟩) (by simp) (by decide)
  · interval_cases j
    rfl
  · decide

/-- C4: whenever the refresh function returns a state label in neither the
pending set nor the target set, the poller terminates with the failure
outcome carrying the offending label (`UnexpectedStateError`); it never
keeps polling on an unmodeled state. -/
theorem waitForState_unexpected (spec : WaitSpec) (refresh : Nat → Refresh)
    (hmin : 0 < spec.minInterval) (n : Nat) (l : String)
    (hall : ∀ j, j < n → ∃ l', refresh j = .found l' ∧
      spec.pending.contains l' = true ∧ spec.target.contains l' = false)
    (hr : refresh n = .found l)
    (hp : spec.pending.contains l = false) (htg : spec.target.contains l = false)
    (ht : spec.initialDelay + n * spec.minInterval ≤ spec.timeout) :
    waitForState spec refresh = .failedUnexpected l := by
  unfold waitForState
  have h2 : n ≤ n * spec.minInterval := by
    conv_lhs => rw [← mul_one n]
    exact mul_le_mul_left' (by omega) n
  have h3 : n * spec.minInterval ≤ spec.timeout :=
    le_trans (Nat.le_add_left _ _) ht
  have hfuel : n ≤ spec.timeout := le_trans h2 h3
  obtain ⟨f, hf⟩ : ∃ f, spec.timeout + 1 = f + n := ⟨spec.timeout + 1 - n, by omega⟩
  obtain ⟨last', hskip⟩ := pollFrom_skip_pending spec refresh n f 0 none
    (fun j hj1 hj2 => hall j (by omega)) (by simpa using ht)
  rw [hf, hskip]
  obtain ⟨f', rfl⟩ : ∃ f', f = f' + 1 := ⟨f - 1, by omega⟩
  have := pollFrom_at_unexpected spec refresh f' n last' l hr hp htg ht
  simpa using this

/-- Witness for C4: the ElastiCache create waiter observing `creating` and
then the unmodeled label `deleting`. -/
theorem waitForState_unexpected_witness :
    waitForState (waitUserGroupCreatedSpec 600)
      (fun k => if k = 0 then .found "creating" else .found "deleting") =
      .failedUnexpected "deleting" := by
  refine waitForState_unexpected (waitUserGroupCreatedSpec 600)
    (fun k => if k = 0 then .found "creating" else .found "deleting") (by decide)
    1 "deleting" (fun j hj => ⟨"creating", ?_, ?_, ?_⟩) (by simp) (by decide)
    (by decide) (by decide)
  · interval_cases j
    rfl
  · decide
  · decide

/-- C5: when every state observed before the timeout is in the pending set,
the poller's outcome is `timedOut`, an outcome distinct from the
unexpected-state failure, so callers can tell the two apart. -/
theorem waitForState_pending_timeout (spec : WaitSpec) (refresh : Nat → Refresh)
    (hall : ∀ k, spec.initialDelay + k * spec.minInterval ≤ spec.timeout →
      ∃ l, refresh k = .found l ∧ spec.pending.contains l = true ∧
        spec.target.contains l = false) :
    (∃ last, waitForState spec refresh = .timedOut last)
    ∧ ∀ last l, (Outcome.timedOut last : Outcome) ≠ .failedUnexpected l := by
  constructor
  · exact pollFrom_pending_timeout spec refresh hall (spec.timeout + 1) 0 none
  · intro last l h
    exact Outcome.noConfusion h

/-- Witness for C5: the ElastiCache create waiter with a refresh that always
reports `creating`. -/
theorem waitForState_pending_timeout_witness :
    (∃ last, waitForState (waitUserGroupCreatedSpec 100)
      (fun _ => .found "creating") = .timedOut last)
    ∧ ∀ last l, (Outcome.timedOut last : Outcome) ≠ .failedUnexpected l :=
  waitForState_pending_timeout (waitUserGroupCreatedSpec 100)
    (fun _ => .found "creating")
    (fun k hk => ⟨"creating", rfl, by decide, by decide⟩)

/-- C6: the poller never polls before `initialDelay` and leaves at least
`minInterval` between successive refresh calls; the ElastiCache user-group
waiters configure `initialDelay` as 30 seconds and `minInterval` as 10
seconds. -/
theorem waitForState_timing (spec : WaitSpec) (refresh : Nat → Refresh) :
    (∀ t ∈ refreshTimes spec refresh, spec.initialDelay ≤ t)
    ∧ List.Chain' (fun a b => a + spec.minInterval ≤ b) (refreshTimes spec refresh)
    ∧ (∀ tmo, (waitUserGroupCreatedSpec tmo).initialDelay = 30 ∧
        (waitUserGroupCreatedSpec tmo).minInterval = 10)
    ∧ (∀ tmo, (waitUserGroupUpdatedSpec tmo).initialDelay = 30 ∧
        (waitUserGroupUpdatedSpec tmo).minInterval = 10)
    ∧ (∀ tmo, (waitUserGroupDeletedSpec tmo).initialDelay = 30 ∧
        (waitUserGroupDeletedSpec tmo).minInterval = 10) := by
  refine ⟨?_, ?_, fun _ => ⟨rfl, rfl⟩, fun _ => ⟨rfl, rfl⟩, fun _ => ⟨rfl, rfl⟩⟩
  · intro t ht
    simp only [refreshTimes] at ht
    have := pollFrom_times_lb spec refresh (spec.timeout + 1) 0 none t ht
    simpa using this
  · simp only [refreshTimes]
    exact pollFrom_times_chain spec refresh (spec.timeout + 1) 0 none

/-- C7: for every guarded key mutation (create, update, delete), a
precondition-mismatch response to the remote write is returned to the
caller as that error — no fresh token is re-read and the write is not
retried (each log holds at most one token read and one guarded write) —
and the named lock is released unconditionally, as the final action of
every path that acquired it. -/
theorem keyResource_guarded_mutation (kvsARN : String) (env : KvsEnv)
    (valueChanged : Bool) :
    (∀ etag, env.describeResp = .ok etag → env.expandOk = true →
      env.putResp etag = .error .preconditionFailed →
      (keyCreate kvsARN env).1 = .error .preconditionFailed ∧
      (keyUpdate kvsARN true env).1 = .error .preconditionFailed)
    ∧ (∀ etag, env.describeResp = .ok etag →
      env.deleteResp etag = .error .preconditionFailed →
      (keyDelete kvsARN env).1 = .error .preconditionFailed)
    ∧ guardedLog kvsARN (keyCreate kvsARN env).2
    ∧ guardedLog kvsARN (keyUpdate kvsARN valueChanged env).2
    ∧ guardedLog kvsARN (keyDelete kvsARN env).2 := by
  refine ⟨?_, ?_, ?_, ?_, ?_⟩
  · intro etag h1 h2 h3
    constructor <;> simp [keyCreate, keyUpdate, h1, h2, h3]
  · intro etag h1 h2
    simp [keyDelete, h1, h2]
  · rcases henv : env.describeResp with e | etag
    · simp [keyCreate, henv, guardedLog, KvsEvent.isRead, KvsEvent.isWrite,
        List.count_cons, List.getLast?]
    · rcases hex : env.expandOk with _ | _
      · simp [keyCreate, henv, hex, guardedLog, KvsEvent.isRead, KvsEvent.isWrite,
          List.count_cons, List.getLast?]
      · rcases hput : env.putResp etag with e | u
        all_goals
          simp [keyCreate, henv, hex, hput, guardedLog, KvsEvent.isRead,
            KvsEvent.isWrite, List.count_cons, List.getLast?]
  · rcases hch : valueChanged with _ | _
    · simp [keyUpdate, guardedLog]
    · rcases henv : env.describeResp with e | etag
      · simp [keyUpdate, henv, guardedLog, KvsEvent.isRead, KvsEvent.isWrite,
          List.count_cons, List.getLast?]
      · rcases hex : env.expandOk with _ | _
        · simp [keyUpdate, henv, hex, guardedLog, KvsEvent.isRead, KvsEvent.isWrite,
            List.count_cons, List.getLast?]
        · rcases hput : env.putResp etag with e | u
          all_goals
            simp [keyUpdate, henv, hex, hput, guardedLog, KvsEvent.isRead,
              KvsEvent.isWrite, List.count_cons, List.getLast?]
  · rcases henv : env.describeResp with e | etag
    · simp [keyDelete, henv, guardedLog, KvsEvent.isRead, KvsEvent.isWrite,
        List.count_cons, List.getLast?]
    · rcases hdel : env.deleteResp etag with e | u
      · rcases e with _ | _ | m
        all_goals
          simp [keyDelete, henv, hdel, guardedLog, KvsEvent.isRead,
            KvsEvent.isWrite, List.count_cons, List.getLast?]
      · simp [keyDelete, henv, hdel, guardedLog, KvsEvent.isRead,
          KvsEvent.isWrite, List.count_cons, List.getLast?]

/-- Witness for C7 at a concrete environment whose write is rejected by the
precondition check. -/
theorem keyResource_guarded_mutation_witness :
    (keyCreate "arn:aws:cloudfront::123:key-value-store/test"
      { describeResp := .ok "etag1"
        putResp := fun _ => .error .preconditionFailed
        deleteResp := fun _ => .error .preconditionFailed
        expandOk := true }).1 = .error .preconditionFailed :=
  ((keyResource_guarded_mutation "arn:aws:cloudfront::123:key-value-store/test"
    { describeResp := .ok "etag1"
      putResp := fun _ => .error .preconditionFailed
      deleteResp := fun _ => .error .preconditionFailed
      expandOk := true } true).1 "etag1" rfl rfl rfl).1

theorem mutexInv_step (s s' : MutexState) (h : MutexStep s s')
    (hinv : ∀ i, inCritical s i → s.holder = some i) :
    ∀ i, inCritical s' i → s'.holder = some i := by
  cases h with
  | acquire j hpc hhold =>
    intro i hi
    by_cases hij : i = j
    · subst hij; rfl
    · exfalso
      have hpci : inCritical s i := by
        simpa [inCritical, Function.update_noteq hij] using hi
      have hcon := hinv i hpci
      rw [hhold] at hcon
      exact Option.noConfusion hcon
  | readToken j hpc =>
    intro i hi
    by_cases hij : i = j
    · subst hij
      exact hinv i (Or.inl hpc)
    · exact hinv i (by simpa [inCritical, Function.update_noteq hij] using hi)
  | guardedWrite j hpc =>
    intro i hi
    by_cases hij : i = j
    · subst hij
      exact hinv i (Or.inr (Or.inl hpc))
    · exact hinv i (by simpa [inCritical, Function.update_noteq hij] using hi)
  | release j hpc =>
    intro i hi
    exfalso
    by_cases hij : i = j
    · subst hij
      simp [inCritical, Function.update_same] at hi
    · have hpci : inCritical s i := by
        simpa [inCritical, Function.update_noteq hij] using hi
      have hi' := hinv i hpci
      have hj' := hinv j (Or.inr (Or.inr hpc))
      rw [hi'] at hj'
      exact hij (Option.some.inj hj')

theorem mutexInv_reachable (s : MutexState) (h : MutexReachable s) :
    ∀ i, inCritical s i → s.holder = some i := by
  induction h with
  | refl =>
    intro i hi
    simp [inCritical, initMutexState] at hi
  | tail hab hbc ih =>
    exact mutexInv_step _ _ hbc ih

/-- C8: two concurrent in-process guarded mutations against the same
key-value-store identity never have their read-token-then-write critical
sections overlap: in every reachable interleaving state at most one session
is inside the critical section protected by the named lock. -/
theorem mutex_critical_sections_disjoint (s : MutexState)
    (h : MutexReachable s) :
    ¬(inCritical s false ∧ inCritical s true) := by
  rintro ⟨h0, h1⟩
  have e0 := mutexInv_reachable s h false h0
  have e1 := mutexInv_reachable s h true h1
  rw [e0] at e1
  exact Bool.noConfusion (Option.some.inj e1)

/-- Witness for C8 at the initial state. -/
theorem mutex_critical_sections_disjoint_witness :
    ¬(inCritical initMutexState false ∧ inCritical initMutexState true) :=
  mutex_critical_sections_disjoint initMutexState Relation.ReflTransGen.refl

/-- C9: delete is idempotent with respect to absence — when the remote
delete reports that the object does not exist (`UserGroupNotFoundFault` for
the ElastiCache user group, `ResourceNotFoundException` for the
key-value-store key), the operation returns success with no error. -/
theorem delete_idempotent_absence (envU : UserGroupDeleteEnv)
    (kvsARN etag : String) (envK : KvsEnv)
    (hU : envU.deleteResp = .error .userGroupNotFoundFault)
    (hK1 : envK.describeResp = .ok etag)
    (hK2 : envK.deleteResp etag = .error .resourceNotFound) :
    resourceUserGroupDelete envU = .ok () ∧ (keyDelete kvsARN envK).1 = .ok () := by
  constructor
  · simp [resourceUserGroupDelete, hU]
  · simp [keyDelete, hK1, hK2]

/-- Witness for C9 at concrete environments reporting not-found. -/
theorem delete_idempotent_absence_witness :
    resourceUserGroupDelete
      { deleteResp := .error .userGroupNotFoundFault, waitResp := .ok () } = .ok ()
    ∧ (keyDelete "arn:aws:cloudfront::123:key-value-store/test"
      { describeResp := .ok "etag1"
        putResp := fun _ => .ok ()
        deleteResp := fun _ => .error .resourceNotFound
        expandOk := true }).1 = .ok () :=
  delete_idempotent_absence
    { deleteResp := .error .userGroupNotFoundFault, waitResp := .ok () }
    "arn:aws:cloudfront::123:key-value-store/test" "etag1"
    { describeResp := .ok "etag1"
      putResp := fun _ => .ok ()
      deleteResp := fun _ => .error .resourceNotFound
      expandOk := true } rfl rfl rfl

/-- C10: a read of a resource that is not newly created clears the
resource's identity from state and returns success when the remote lookup
reports not-found; when the resource is newly created, the not-found is
surfaced as an error. -/
theorem read_not_found_handling (d : ReadState) (idChars : List Char)
    (delim esc : Char) (parts : List (List Char))
    (hparse : expandResourceId delim esc idChars 3 false = .ok parts) :
    (d.isNewResource = false →
      resourceUserGroupRead d .notFound = ({ d with id := none }, .ok ()) ∧
      resourceUserInGroupRead d idChars delim esc .notFound =
        ({ d with id := none }, .ok ()))
    ∧ (d.isNewResource = true →
      (∃ e, (resourceUserGroupRead d .notFound).2 = .error e) ∧
      (∃ e, (resourceUserInGroupRead d idChars delim esc .notFound).2 = .error e)) := by
  constructor
  · intro h
    constructor
    · simp [resourceUserGroupRead, h]
    · simp [resourceUserInGroupRead, hparse, h]
  · intro h
    constructor
    · exact ⟨"reading ElastiCache User Group: not found",
        by simp [resourceUserGroupRead, h]⟩
    · exact ⟨"reading Cognito Group User: not found",
        by simp [resourceUserInGroupRead, hparse, h]⟩

/-- Witness for C10 at a concrete pre-existing resource and parseable id. -/
theorem read_not_found_handling_witness :
    resourceUserGroupRead { id := some "ug1", isNewResource := false } .notFound =
      ({ id := none, isNewResource := false }, .ok ())
    ∧ resourceUserInGroupRead { id := some "ug1", isNewResource := false }
        ['p', ',', 'g', ',', 'u'] ',' '\\' .notFound =
      ({ id := none, isNewResource := false }, .ok ()) :=
  (read_not_found_handling { id := some "ug1", isNewResource := false }
    ['p', ',', 'g', ',', 'u'] ',' '\\' [['p'], ['g'], ['u']] (by rfl)).1 rfl
